import Mathlib

/-!
Verification of the template engine of `lice` (src/lice/core.py).

The embedding models the pure parts of the program directly:
* `LANG_CMT` / `LANGS` — the comment-style and language tables;
* `decorate` — the decoration loop shared by `load_file_template` and
  `load_package_template` (a template is the list of raw lines produced by
  iterating over the file, each line carrying its trailing newline);
* `scanVars` / `extract_vars` — the regex scan for placeholder tokens and the
  dedup-and-sort of `extract_vars`;
* `pyReplace` / `generate_license` — Python `str.replace` and the substitution
  loop of `generate_license`;
* `clean_path` / `load_file_template` — path handling, with the OS path
  functions and the filesystem as explicit parameters;
* `header_mode` / `guess_organization` — the CLI glue, with the resource set,
  subprocess result and OS user as explicit parameters.
-/

namespace Lice

/-- A comment style: open marker, per-line marker, close marker
(one row of the `LANG_CMT` table). -/
structure CommentStyle where
  openMark : String
  lineMark : String
  closeMark : String
deriving DecidableEq, Repr

/-- The `LANG_CMT` table of src/lice/core.py. -/
def LANG_CMT : List (String × CommentStyle) :=
  [("text", ⟨"", "", ""⟩), ("c", ⟨"/*", " *", " */"⟩), ("unix", ⟨"", "#", ""⟩),
   ("lua", ⟨"--[[", "", "--]]"⟩), ("java", ⟨"/**", " *", " */"⟩),
   ("perl", ⟨"=item", "", "=cut"⟩), ("ruby", ⟨"=begin", "", "=end"⟩),
   ("fortran", ⟨"C", "C", "C"⟩), ("fortran90", ⟨"!*", "!*", "!*"⟩),
   ("erlang", ⟨"%%", "%", "%%"⟩), ("html", ⟨"<!--", "", "-->"⟩)]

/-- The `LANGS` table of src/lice/core.py. -/
def LANGS : List (String × String) :=
  [("txt", "text"), ("h", "c"), ("hpp", "c"), ("c", "c"), ("cc", "c"),
   ("cpp", "c"), ("py", "unix"), ("pl", "perl"), ("sh", "unix"),
   ("lua", "lua"), ("rb", "ruby"), ("js", "c"), ("java", "java"),
   ("f", "fortran"), ("f90", "fortran90"), ("erl", "erlang"),
   ("html", "html"), ("css", "c"), ("m", "c")]

/-- The per-line writes of the decoration loop: each raw input line (as read
from the file, trailing newline included) is written as
`lineMark ++ " " ++ line`.  The separating space is written unconditionally,
also when the line marker is the empty string. -/
def decorateLines (style : CommentStyle) : List String → String
  | [] => ""
  | l :: ls => style.lineMark ++ " " ++ l ++ decorateLines style ls

/-- The decoration performed by `load_file_template` and
`load_package_template`: open marker plus newline, the decorated lines, close
marker plus newline. -/
def decorate (style : CommentStyle) (lines : List String) : String :=
  style.openMark ++ "\n" ++ decorateLines style lines ++ (style.closeMark ++ "\n")

/-- The word characters of the regex class `\w` (ASCII model). -/
def isWordChar (c : Char) : Bool :=
  c.isAlpha || c.isDigit || c = '_'

/-- An opening curly brace. -/
def lbrace : Char := '\x7b'

/-- A closing curly brace. -/
def rbrace : Char := '\x7d'

/-- Match the placeholder pattern of `extract_vars` at the head of the
character list: two open braces, one space, a nonempty run of word
characters, one space, two close braces.  Returns the identifier and the
length of the whole match. -/
def matchVarAt (l : List Char) : Option (String × Nat) :=
  match l with
  | a :: b :: c :: rest =>
    if a = lbrace ∧ b = lbrace ∧ c = ' ' then
      let key := rest.takeWhile isWordChar
      if key.isEmpty then none
      else
        match rest.drop key.length with
        | d :: e :: f :: _ =>
          if d = ' ' ∧ e = rbrace ∧ f = rbrace then
            some (String.mk key, key.length + 6)
          else none
        | _ => none
    else none
  | _ => none

/-- The scan of `re.finditer`: at each position try the pattern; on a match
record the key and continue after the match, otherwise advance one character.
The fuel argument only serves termination: `fuel = l.length` always
suffices, since every step consumes at least one character. -/
def scanVarsAux : Nat → List Char → List String
  | 0, _ => []
  | _ + 1, [] => []
  | fuel + 1, c :: cs =>
    match matchVarAt (c :: cs) with
    | some (k, len) => k :: scanVarsAux fuel (List.drop len (c :: cs))
    | none => scanVarsAux fuel cs

/-- All placeholder keys of a text, in order of appearance, duplicates kept. -/
def scanVars (l : List Char) : List String :=
  scanVarsAux l.length l

/-- Computable lexicographic comparison of character lists, by code point
(the order Python `sorted` uses on strings). -/
def lexLe : List Char → List Char → Bool
  | [], _ => true
  | _ :: _, [] => false
  | a :: as, b :: bs => if a = b then lexLe as bs else decide (a < b)

/-- Computable lexicographic comparison of strings. -/
def strLe (a b : String) : Bool := lexLe a.data b.data

/-- `strLe` as a relation, used to sort the extracted variable names. -/
def strLeRel (a b : String) : Prop := strLe a b = true

instance : DecidableRel strLeRel := fun _ _ => instDecidableEqBool _ _

/-- `extract_vars` of src/lice/core.py: the distinct placeholder keys, sorted
lexicographically (`sorted(list(keys))` on the set of matches). -/
def extract_vars (template : String) : List String :=
  List.insertionSort strLeRel (scanVars template.data).dedup

/-- `pat` is a prefix of the character list. -/
def matchesAt : List Char → List Char → Bool
  | [], _ => true
  | _ :: _, [] => false
  | p :: ps, c :: cs => p = c && matchesAt ps cs

/-- The scan of Python `str.replace`: replace every non-overlapping occurrence
of `pat`, scanning left to right, never rescanning the replacement text.  The
fuel argument only serves termination; `fuel = s.length` suffices for a
nonempty pattern. -/
def replaceAux : Nat → List Char → List Char → List Char → List Char
  | 0, _, _, s => s
  | _ + 1, _, _, [] => []
  | fuel + 1, pat, rep, c :: cs =>
    if matchesAt pat (c :: cs) then
      rep ++ replaceAux fuel pat rep (List.drop pat.length (c :: cs))
    else c :: replaceAux fuel pat rep cs

/-- Python `str.replace` for a nonempty pattern (the only way
`generate_license` calls it: its patterns always have at least seven
characters). -/
def pyReplace (s pat rep : String) : String :=
  if pat.data.isEmpty then s
  else String.mk (replaceAux s.data.length pat.data rep.data s.data)

/-- The literal placeholder token built by `generate_license`:
`"\x7b\x7b %s \x7d\x7d" % key`. -/
def varToken (k : String) : String := "\x7b\x7b " ++ k ++ " \x7d\x7d"

/-- The message of the ValueError raised by `generate_license`. -/
def missingMsg (k : String) : String := k ++ " is missing from the template context"

/-- The loop body of `generate_license`: for each extracted key in order,
fail if the key is absent from the context, otherwise replace every literal
occurrence of its token in the current content. -/
def applyVars (context : List (String × String)) : List String → String → Except String String
  | [], content => .ok content
  | k :: ks, content =>
    match List.lookup k context with
    | none => .error (missingMsg k)
    | some v => applyVars context ks (pyReplace content (varToken k) v)

/-- `generate_license` of src/lice/core.py (the output `StringIO` is the
`.ok` payload; the raised ValueError is the `.error` message). -/
def generate_license (template : String) (context : List (String × String)) : Except String String :=
  applyVars context (extract_vars template) template

/-- Split a character list into the chunk up to and including the first
newline, and the remainder. -/
def breakLine : List Char → List Char × List Char
  | [] => ([], [])
  | c :: cs => if c = '\n' then ([c], cs) else (c :: (breakLine cs).1, (breakLine cs).2)

theorem breakLine_snd_length : ∀ l : List Char, l ≠ [] → (breakLine l).2.length < l.length
  | [], h => absurd rfl h
  | c :: cs, _ => by
    by_cases hc : c = '\n'
    · simp [breakLine, hc]
    · rcases eq_or_ne cs [] with rfl | hcs
      · simp [breakLine, hc]
      · have := breakLine_snd_length cs hcs
        simp only [breakLine, if_neg hc, List.length_cons]
        exact Nat.lt_succ_of_lt this

/-- Split a character list into newline-terminated chunks (the last chunk may
lack a newline). -/
def splitAfterNewlines (l : List Char) : List (List Char) :=
  if h : l = [] then []
  else (breakLine l).1 :: splitAfterNewlines (breakLine l).2
termination_by l.length
decreasing_by exact breakLine_snd_length l h

/-- A raw line as produced by iterating over a file that ends with a newline:
nonempty, terminated by a newline, and containing no interior newline. -/
def isLineChars : List Char → Bool
  | [] => false
  | [c] => c = '\n'
  | c :: c' :: cs => !(c = '\n' : Bool) && isLineChars (c' :: cs)

/-- A raw template line: newline-terminated with no interior newline. -/
def isRawLine (l : String) : Bool := isLineChars l.data

/-- None of a style's three markers contains a newline (true of every style
in `LANG_CMT`). -/
def noNewlineMarks (style : CommentStyle) : Bool :=
  style.openMark.data.all (fun c => !(c = '\n' : Bool)) &&
  style.lineMark.data.all (fun c => !(c = '\n' : Bool)) &&
  style.closeMark.data.all (fun c => !(c = '\n' : Bool))

/-- Strip a decoration produced with `style` from a decorated text: drop the
open-marker line and the close-marker line, and drop the per-line marker and
its separating space from every remaining line. -/
def stripDecoration (style : CommentStyle) (s : String) : List String :=
  (((splitAfterNewlines s.data).drop 1).dropLast).map
    (fun l => String.mk (l.drop (style.lineMark.length + 1)))

/-- The OS path functions used by `clean_path`, as explicit parameters. -/
structure PathEnv where
  expanduser : String → String
  expandvars : String → String
  abspath : String → String

/-- `clean_path` of src/lice/core.py: expand user, expand environment
variables, make absolute. -/
def clean_path (env : PathEnv) (p : String) : String :=
  env.abspath (env.expandvars (env.expanduser p))

/-- The filesystem, as explicit parameters: which paths exist, and the raw
lines read from a path (each line keeping its trailing newline). -/
structure FileSys where
  pathExists : String → Bool
  readLines : String → List String

/-- `load_file_template` of src/lice/core.py: the existence check is made on
the raw `path` argument, and the file that is then opened and decorated is
`clean_path path`. -/
def load_file_template (env : PathEnv) (fs : FileSys) (path : String) (style : CommentStyle) :
    Except String String :=
  if fs.pathExists path then .ok (decorate style (fs.readLines (clean_path env path)))
  else .error ("path does not exist: " ++ path)

/-- The bundled resource name used by `load_package_template` for the header
variant: `"template-%s-header.txt" % license`. -/
def headerResourceName (license : String) : String :=
  "template-" ++ license ++ "-header.txt"

/-- The bundled resource name used by `load_package_template` for the body
variant: `"template-%s.txt" % license`. -/
def bodyResourceName (license : String) : String :=
  "template-" ++ license ++ ".txt"

/-- `load_package_template` of src/lice/core.py, with the package resource
set as an explicit parameter (`none` models the IOError that
`resource_stream` raises for a missing resource). -/
def load_package_template (res : String → Option (List String)) (license : String)
    (style : CommentStyle) (header : Bool) : Except Unit String :=
  match res (if header then headerResourceName license else bodyResourceName license) with
  | none => .error ()
  | some lines => .ok (decorate style lines)

/-- Exit code, stdout and stderr of one program run. -/
structure RunResult where
  exitCode : Nat
  stdoutText : String
  stderrText : String
deriving DecidableEq, Repr

/-- The header-mode branch of `main` (src/lice/core.py lines 181-196): with a
template path, load from the filesystem; otherwise load the bundled header
resource, and on IOError write the "Sorry..." diagnostic to stderr and exit 1.
On success the rendered text goes to stdout and the exit code is 0.  An
uncaught ValueError (bad path, missing context key) terminates the
interpreter with the error on stderr and exit code 1, modelled the same
way. -/
def header_mode (env : PathEnv) (fs : FileSys) (res : String → Option (List String))
    (templatePath : Option String) (license : String) (style : CommentStyle)
    (context : List (String × String)) : RunResult :=
  match templatePath with
  | some p =>
    match load_file_template env fs p style with
    | .error e => ⟨1, "", e⟩
    | .ok t =>
      match generate_license t context with
      | .ok content => ⟨0, content, ""⟩
      | .error e => ⟨1, "", e⟩
  | none =>
    match load_package_template res license style true with
    | .error _ => ⟨1, "", "Sorry, no source headers are available for " ++ license ++ ".\n"⟩
    | .ok t =>
      match generate_license t context with
      | .ok content => ⟨0, content, ""⟩
      | .error e => ⟨1, "", e⟩

/-- The environment consulted by `guess_organization`: the output of
`git config --get user.name` when that subprocess succeeds (`none` models any
failure, including a missing git executable), and the OS user name returned
by `getpass.getuser()`. -/
structure OrgEnv where
  gitUserName : Option String
  osUser : String

/-- `guess_organization` of src/lice/core.py: the stripped subprocess output
on success, the OS user name on any failure.  (Byte decoding is elided: both
branches are modelled as already-decoded strings.) -/
def guess_organization (env : OrgEnv) : String :=
  match env.gitUserName with
  | some out => out.trim
  | none => env.osUser

/-- The organization context value of `main`: the explicit `--org` flag
when given, else `guess_organization`. -/
def resolve_organization (flag : Option String) (env : OrgEnv) : String :=
  match flag with
  | some o => o
  | none => guess_organization env

/-- One left-to-right pass of no-re-scanning substitution: at each position,
if the token of an extracted-and-bound variable starts there, emit its value
and continue after the token, never re-scanning the emitted value; otherwise
copy one character.  Fuel as in `scanVarsAux`. -/
def renderOnceAux : Nat → List String → List (String × String) → List Char → List Char
  | 0, _, _, s => s
  | _ + 1, _, _, [] => []
  | fuel + 1, vars, context, c :: cs =>
    match matchVarAt (c :: cs) with
    | some (k, len) =>
      if k ∈ vars then
        match List.lookup k context with
        | some v => v.data ++ renderOnceAux fuel vars context (List.drop len (c :: cs))
        | none => c :: renderOnceAux fuel vars context cs
      else c :: renderOnceAux fuel vars context cs
    | none => c :: renderOnceAux fuel vars context cs

/-- Modelled from the spec's words (the substitution contract of section 4.4
as read by claim C2): replace every occurrence of each extracted placeholder
with its context value in a single simultaneous pass, so that text introduced
by a substituted value is never itself treated as a placeholder and expanded.
This is the comparison point for the claim, not code of the repository. -/
def renderNoRescan (template : String) (context : List (String × String)) :
    Except String String :=
  match (extract_vars template).find? (fun k => (List.lookup k context).isNone) with
  | some k => .error (missingMsg k)
  | none =>
    .ok (String.mk (renderOnceAux template.data.length (extract_vars template)
          context template.data))

/-- A path environment in which `"~/LICENSE"` expands to
`"/home/user/LICENSE"` and everything else is left unchanged. -/
def tildeEnv : PathEnv :=
  ⟨fun p => if p = "~/LICENSE" then "/home/user/LICENSE" else p, id, id⟩

/-- A filesystem in which exactly `"/home/user/LICENSE"` exists. -/
def tildeFs : FileSys :=
  ⟨fun p => p == "/home/user/LICENSE", fun _ => ["MIT License\n"]⟩

/-! Basic facts about the computable lexicographic order. -/

theorem lexLe_total : ∀ as bs : List Char, lexLe as bs = true ∨ lexLe bs as = true
  | [], _ => Or.inl rfl
  | _ :: _, [] => Or.inr rfl
  | a :: as, b :: bs => by
    by_cases h : a = b
    · subst h
      simpa [lexLe] using lexLe_total as bs
    · rcases lt_or_gt_of_ne h with hlt | hgt
      · exact Or.inl (by simp [lexLe, h, hlt])
      · exact Or.inr (by simp [lexLe, Ne.symm h, hgt])

theorem lexLe_trans :
    ∀ as bs cs : List Char, lexLe as bs = true → lexLe bs cs = true → lexLe as cs = true
  | [], _, _, _, _ => rfl
  | _ :: _, [], _, h1, _ => by simp [lexLe] at h1
  | _ :: _, _ :: _, [], _, h2 => by simp [lexLe] at h2
  | a :: as, b :: bs, c :: cs, h1, h2 => by
    by_cases hab : a = b <;> by_cases hbc : b = c
    · subst hab; subst hbc
      simp only [lexLe, if_pos rfl] at h1 h2 ⊢
      exact lexLe_trans as bs cs h1 h2
    · subst hab
      simp only [lexLe, if_pos rfl, if_neg hbc] at h2 ⊢
      exact h2
    · subst hbc
      simp only [lexLe, if_pos rfl, if_neg hab] at h1 ⊢
      exact h1
    · simp only [lexLe, if_neg hab, if_neg hbc, decide_eq_true_eq] at h1 h2
      have hac : a ≠ c := fun h => absurd (h ▸ h1) (lt_asymm h2)
      simp only [lexLe, if_neg hac, decide_eq_true_eq]
      exact lt_trans h1 h2

theorem lexLe_antisymm :
    ∀ as bs : List Char, lexLe as bs = true → lexLe bs as = true → as = bs
  | [], [], _, _ => rfl
  | [], _ :: _, _, h2 => by simp [lexLe] at h2
  | _ :: _, [], h1, _ => by simp [lexLe] at h1
  | a :: as, b :: bs, h1, h2 => by
    by_cases hab : a = b
    · subst hab
      simp only [lexLe, if_pos rfl] at h1 h2
      rw [lexLe_antisymm as bs h1 h2]
    · simp only [lexLe, if_neg hab, if_neg (Ne.symm hab), decide_eq_true_eq] at h1 h2
      exact absurd h1 (lt_asymm h2)

theorem lexLe_iff :
    ∀ as bs : List Char, lexLe as bs = true ↔ (as = bs ∨ List.Lex (· < ·) as bs)
  | [], [] => by simp [lexLe]
  | [], _ :: _ => by simp [lexLe, List.Lex.nil]
  | a :: as, [] => by
    constructor
    · intro h; simp [lexLe] at h
    · rintro (h | h)
      · exact absurd h (by simp)
      · cases h
  | a :: as, b :: bs => by
    by_cases hab : a = b
    · subst hab
      have hstep : lexLe (a :: as) (a :: bs) = lexLe as bs := by simp [lexLe]
      rw [hstep, lexLe_iff as bs]
      constructor
      · rintro (rfl | h)
        · exact Or.inl rfl
        · exact Or.inr (List.Lex.cons h)
      · rintro (h | h)
        · exact Or.inl (by injection h)
        · cases h with
          | cons h => exact Or.inr h
          | rel h => exact absurd h (lt_irrefl a)
    · simp only [lexLe, if_neg hab, decide_eq_true_eq]
      constructor
      · intro h
        exact Or.inr (List.Lex.rel h)
      · rintro (h | h)
        · exact absurd (by injection h) hab
        · cases h with
          | cons h => exact absurd rfl hab
          | rel h => exact h

/-- The computable order agrees with the standard lexicographic order on
strings. -/
theorem strLe_iff_le (a b : String) : strLe a b = true ↔ a ≤ b := by
  rw [String.le_iff_toList_le]
  show lexLe a.data b.data = true ↔ a.data ≤ b.data
  rw [lexLe_iff a.data b.data]
  exact Iff.rfl

instance : IsTotal String strLeRel := ⟨fun a b => lexLe_total a.data b.data⟩

instance : IsTrans String strLeRel := ⟨fun a b c => lexLe_trans a.data b.data c.data⟩

/-! Round-trip lemmas: splitting a decorated text back into its lines. -/

theorem breakLine_line (a rest : List Char) (h : '\n' ∉ a) :
    breakLine (a ++ '\n' :: rest) = (a ++ ['\n'], rest) := by
  induction a with
  | nil => simp [breakLine]
  | cons c a ih =>
    have hc : c ≠ '\n' := fun e => h (by simp [e])
    have ha : '\n' ∉ a := fun e => h (List.mem_cons_of_mem _ e)
    simp [breakLine, hc, ih ha]

theorem splitAfterNewlines_line (a rest : List Char) (h : '\n' ∉ a) :
    splitAfterNewlines (a ++ '\n' :: rest) = (a ++ ['\n']) :: splitAfterNewlines rest := by
  rw [splitAfterNewlines]
  have hne : a ++ '\n' :: rest ≠ [] := by simp
  rw [dif_neg hne, breakLine_line a rest h]

theorem isLineChars_elim : ∀ l : List Char, isLineChars l = true → ∃ a, l = a ++ ['\n'] ∧ '\n' ∉ a
  | [], h => by simp [isLineChars] at h
  | [c], h => by
    simp only [isLineChars, decide_eq_true_eq] at h
    exact ⟨[], by simp [h], by simp⟩
  | c :: c' :: cs, h => by
    simp only [isLineChars, Bool.and_eq_true, Bool.not_eq_true', decide_eq_false_iff_not] at h
    obtain ⟨a, ha, hna⟩ := isLineChars_elim (c' :: cs) h.2
    refine ⟨c :: a, by simp [ha], ?_⟩
    intro hm
    rcases List.mem_cons.mp hm with e | e
    · exact h.1 e.symm
    · exact hna e

theorem noNewline_of_all {s : String}
    (h : s.data.all (fun c => !(c = '\n' : Bool)) = true) : '\n' ∉ s.data := by
  intro hmem
  have := List.all_eq_true.mp h _ hmem
  simp at this

theorem splitAfterNewlines_decorateLines (style : CommentStyle)
    (hmark : '\n' ∉ style.lineMark.data) :
    ∀ (lines : List String), (∀ l ∈ lines, isRawLine l = true) → ∀ rest : List Char,
      splitAfterNewlines ((decorateLines style lines).data ++ rest)
        = lines.map (fun l => style.lineMark.data ++ ' ' :: l.data) ++ splitAfterNewlines rest
  | [], _, rest => rfl
  | l :: ls, hl, rest => by
    obtain ⟨a, ha, hna⟩ := isLineChars_elim l.data (hl l (by simp))
    have hdata : (decorateLines style (l :: ls)).data ++ rest
        = (style.lineMark.data ++ ' ' :: a) ++
            '\n' :: ((decorateLines style ls).data ++ rest) := by
      rw [show decorateLines style (l :: ls)
            = style.lineMark ++ " " ++ l ++ decorateLines style ls from rfl,
          String.data_append, String.data_append, String.data_append, ha,
          show (" " : String).data = [' '] from rfl]
      simp [List.append_assoc]
    have hno : '\n' ∉ style.lineMark.data ++ ' ' :: a := by
      intro hm
      rcases List.mem_append.mp hm with e | e
      · exact hmark e
      · rcases List.mem_cons.mp e with e' | e'
        · exact absurd e'.symm (by decide)
        · exact hna e'
    rw [hdata, splitAfterNewlines_line _ _ hno,
        splitAfterNewlines_decorateLines style hmark ls (fun l hm => hl l (by simp [hm])) rest]
    simp [ha]

theorem stripDecoration_decorate (style : CommentStyle) (lines : List String)
    (hmark : noNewlineMarks style = true) (hl : ∀ l ∈ lines, isRawLine l = true) :
    stripDecoration style (decorate style lines) = lines := by
  have hmarks := hmark
  simp only [noNewlineMarks, Bool.and_eq_true] at hmarks
  have ho : '\n' ∉ style.openMark.data := noNewline_of_all hmarks.1.1
  have hm : '\n' ∉ style.lineMark.data := noNewline_of_all hmarks.1.2
  have hc : '\n' ∉ style.closeMark.data := noNewline_of_all hmarks.2
  have hdata : (decorate style lines).data
      = style.openMark.data ++
          '\n' :: ((decorateLines style lines).data ++ (style.closeMark.data ++ ['\n'])) := by
    rw [show decorate style lines
          = style.openMark ++ "\n" ++ decorateLines style lines ++ (style.closeMark ++ "\n") from rfl,
        String.data_append, String.data_append, String.data_append, String.data_append,
        show ("\n" : String).data = ['\n'] from rfl]
    simp [List.append_assoc]
  have h0 : splitAfterNewlines ([] : List Char) = [] := by
    rw [splitAfterNewlines]
    rfl
  have hclose : splitAfterNewlines (style.closeMark.data ++ ['\n'])
      = [style.closeMark.data ++ ['\n']] := by
    rw [show style.closeMark.data ++ ['\n']
          = style.closeMark.data ++ '\n' :: ([] : List Char) from rfl,
        splitAfterNewlines_line _ _ hc, h0]
  rw [stripDecoration, hdata, splitAfterNewlines_line _ _ ho,
      splitAfterNewlines_decorateLines style hm lines hl, hclose]
  simp only [List.drop_one, List.tail_cons, List.dropLast_concat, List.map_map]
  have hfun : ((fun l : List Char => String.mk (l.drop (style.lineMark.length + 1))) ∘
      fun l : String => style.lineMark.data ++ ' ' :: l.data) = id := by
    funext l
    show String.mk ((style.lineMark.data ++ ' ' :: l.data).drop (style.lineMark.length + 1)) = l
    have hsplit : style.lineMark.data ++ ' ' :: l.data
        = (style.lineMark.data ++ [' ']) ++ l.data := by simp
    have hlen : style.lineMark.length + 1 = (style.lineMark.data ++ [' ']).length := by
      rw [List.length_append]
      rfl
    rw [hsplit, hlen, List.drop_left]
  rw [hfun, List.map_id]

/-- Every style of the `LANG_CMT` table has newline-free markers. -/
theorem LANG_CMT_noNewlineMarks : ∀ p ∈ LANG_CMT, noNewlineMarks p.2 = true := by decide

/-! Facts about `extract_vars` and the substitution loop. -/

theorem lexLe_refl : ∀ as : List Char, lexLe as as = true
  | [] => rfl
  | a :: as => by simpa [lexLe] using lexLe_refl as

theorem extract_vars_sorted (t : String) : (extract_vars t).Sorted strLeRel :=
  List.sorted_insertionSort strLeRel _

theorem extract_vars_nodup (t : String) : (extract_vars t).Nodup :=
  (List.perm_insertionSort strLeRel _).nodup_iff.mpr (List.nodup_dedup _)

theorem mem_extract_vars (t s : String) : s ∈ extract_vars t ↔ s ∈ scanVars t.data := by
  rw [extract_vars, (List.perm_insertionSort strLeRel _).mem_iff, List.mem_dedup]

theorem applyVars_error_of_missing (context : List (String × String)) :
    ∀ (ks : List String) (content : String), (∃ k ∈ ks, List.lookup k context = none) →
      ∃ k ∈ ks, List.lookup k context = none ∧
        applyVars context ks content = .error (missingMsg k)
  | [], _, h => by rcases h with ⟨k, hk, _⟩; cases hk
  | k :: ks, content, h => by
    match hlook : List.lookup k context with
    | none => exact ⟨k, by simp, hlook, by simp [applyVars, hlook]⟩
    | some v =>
      have h' : ∃ k' ∈ ks, List.lookup k' context = none := by
        rcases h with ⟨k', hk', hnone⟩
        rcases List.mem_cons.mp hk' with rfl | hmem
        · rw [hlook] at hnone; cases hnone
        · exact ⟨k', hmem, hnone⟩
      obtain ⟨k', hmem, hnone, happ⟩ :=
        applyVars_error_of_missing context ks (pyReplace content (varToken k) v) h'
      exact ⟨k', by simp [hmem], hnone, by simp [applyVars, hlook, happ]⟩

theorem applyVars_error_sorted (context : List (String × String)) :
    ∀ ks : List String, ks.Sorted strLeRel → ∀ content : String,
      (∃ k ∈ ks, List.lookup k context = none) →
      ∃ m ∈ ks, List.lookup m context = none ∧
        (∀ k ∈ ks, List.lookup k context = none → strLe m k = true) ∧
        applyVars context ks content = .error (missingMsg m)
  | [], _, _, h => by rcases h with ⟨k, hk, _⟩; cases hk
  | k :: ks, hsort, content, h => by
    have hks := (List.sorted_cons.mp hsort).2
    have hhead := (List.sorted_cons.mp hsort).1
    match hlook : List.lookup k context with
    | none =>
      refine ⟨k, by simp, hlook, fun j hj _ => ?_, by simp [applyVars, hlook]⟩
      rcases List.mem_cons.mp hj with rfl | hmem
      · exact lexLe_refl _
      · exact hhead j hmem
    | some v =>
      have h' : ∃ k' ∈ ks, List.lookup k' context = none := by
        rcases h with ⟨k', hk', hnone⟩
        rcases List.mem_cons.mp hk' with rfl | hmem
        · rw [hlook] at hnone; cases hnone
        · exact ⟨k', hmem, hnone⟩
      obtain ⟨m, hmem, hnone, hmin, happ⟩ :=
        applyVars_error_sorted context ks hks (pyReplace content (varToken k) v) h'
      refine ⟨m, by simp [hmem], hnone, fun j hj hjn => ?_, by simp [applyVars, hlook, happ]⟩
      rcases List.mem_cons.mp hj with rfl | hmem'
      · rw [hlook] at hjn; cases hjn
      · exact hmin j hmem' hjn

theorem applyVars_congr :
    ∀ (ks : List String) (ctx₁ ctx₂ : List (String × String)),
      (∀ k ∈ ks, List.lookup k ctx₁ = List.lookup k ctx₂) →
      ∀ content, applyVars ctx₁ ks content = applyVars ctx₂ ks content
  | [], _, _, _, _ => rfl
  | k :: ks, ctx₁, ctx₂, h, content => by
    have hk := h k (by simp)
    simp only [applyVars]
    rw [← hk]
    cases hl : List.lookup k ctx₁ with
    | none => rfl
    | some v =>
      exact applyVars_congr ks ctx₁ ctx₂ (fun k' hk' => h k' (by simp [hk'])) _

theorem decorateLines_data (style : CommentStyle) :
    ∀ lines : List String,
      (decorateLines style lines).data
        = (lines.map fun l => style.lineMark.data ++ ' ' :: l.data).flatten
  | [] => rfl
  | l :: ls => by
    rw [show decorateLines style (l :: ls)
          = style.lineMark ++ " " ++ l ++ decorateLines style ls from rfl,
        String.data_append, String.data_append, String.data_append,
        show (" " : String).data = [' '] from rfl, decorateLines_data style ls]
    simp [List.append_assoc]

/-! The claims. -/

/-- C1, counterexample: decorating and rendering the one-line template
`Copyright (year) (organization)` with the plain-text style and the context
year=2024, organization=Acme yields a content line with a leading space,
`"\n Copyright 2024 Acme\n\n"`, not the claimed `"\nCopyright 2024 Acme\n\n"`:
the decoration loop writes the separating space even when the line marker is
empty. -/
theorem decorate_plain_scenario_counterexample :
    generate_license
        (decorate ⟨"", "", ""⟩
          ["Copyright \x7b\x7b year \x7d\x7d \x7b\x7b organization \x7d\x7d\n"])
        [("year", "2024"), ("organization", "Acme")] = .ok "\n Copyright 2024 Acme\n\n" ∧
      ("\n Copyright 2024 Acme\n\n" : String) ≠ "\nCopyright 2024 Acme\n\n" :=
  ⟨rfl, by decide⟩

/-- C1 (amended): decoration emits the open marker followed by a line break,
then for every input line the line marker followed by one separating space —
the space written unconditionally, also when the marker is empty — followed
by the original line, and finally the close marker followed by a line break;
the plain-text scenario therefore renders to `"\n Copyright 2024 Acme\n\n"`
(leading space on the content line), and the unix style renders each content
line with the `"# "` marker. -/
theorem decorate_always_space :
    (∀ (style : CommentStyle) (lines : List String),
        (decorate style lines).data
          = style.openMark.data ++ '\n' ::
              ((lines.map fun l => style.lineMark.data ++ ' ' :: l.data).flatten
                ++ (style.closeMark.data ++ ['\n']))) ∧
    generate_license
        (decorate ⟨"", "", ""⟩
          ["Copyright \x7b\x7b year \x7d\x7d \x7b\x7b organization \x7d\x7d\n"])
        [("year", "2024"), ("organization", "Acme")] = .ok "\n Copyright 2024 Acme\n\n" ∧
    generate_license
        (decorate ⟨"", "#", ""⟩
          ["Copyright \x7b\x7b year \x7d\x7d \x7b\x7b organization \x7d\x7d\n"])
        [("year", "2024"), ("organization", "Acme")] = .ok "\n# Copyright 2024 Acme\n\n" := by
  refine ⟨fun style lines => ?_, rfl, rfl⟩
  rw [show decorate style lines
        = style.openMark ++ "\n" ++ decorateLines style lines ++ (style.closeMark ++ "\n")
        from rfl,
      String.data_append, String.data_append, String.data_append, String.data_append,
      show ("\n" : String).data = ['\n'] from rfl, decorateLines_data]
  simp [List.append_assoc]

/-- C2, counterexample: with template `(a) (b)` and context
a = the literal token of b, b = "X", the code yields `"X X"`: the token
introduced by substituting a's value is re-scanned and expanded by the later
pass for b, whereas the claimed no-re-scanning substitution yields the token
of b verbatim. -/
theorem render_rescans_later_vars_counterexample :
    generate_license "\x7b\x7b a \x7d\x7d \x7b\x7b b \x7d\x7d"
        [("a", "\x7b\x7b b \x7d\x7d"), ("b", "X")] = .ok "X X" ∧
      renderNoRescan "\x7b\x7b a \x7d\x7d \x7b\x7b b \x7d\x7d"
        [("a", "\x7b\x7b b \x7d\x7d"), ("b", "X")] = .ok "\x7b\x7b b \x7d\x7d X" ∧
      ("X X" : String) ≠ "\x7b\x7b b \x7d\x7d X" :=
  ⟨rfl, rfl, by decide⟩

/-- C2 (amended): substitution is plain text replacement applied one
extracted variable at a time in sorted order; the output depends only on the
context values of the extracted variables, so a token of a variable not
extracted from the original template is never expanded; a pass never
re-scans text it has itself inserted (a value spelling its own variable's
token survives verbatim); but text introduced by a value is scanned by the
passes of lexicographically later extracted variables and is expanded when
it spells such a variable's token. -/
theorem render_sequential_amended :
    (∀ (t : String) (ctx₁ ctx₂ : List (String × String)),
        (∀ k ∈ extract_vars t, List.lookup k ctx₁ = List.lookup k ctx₂) →
        generate_license t ctx₁ = generate_license t ctx₂) ∧
    generate_license "\x7b\x7b a \x7d\x7d" [("a", "x\x7b\x7b a \x7d\x7d")]
      = .ok "x\x7b\x7b a \x7d\x7d" ∧
    generate_license "\x7b\x7b a \x7d\x7d" [("a", "\x7b\x7b b \x7d\x7d"), ("b", "X")]
      = .ok "\x7b\x7b b \x7d\x7d" ∧
    generate_license "\x7b\x7b a \x7d\x7d \x7b\x7b b \x7d\x7d"
        [("a", "\x7b\x7b b \x7d\x7d"), ("b", "X")] = .ok "X X" ∧
    generate_license "\x7b\x7b a \x7d\x7d.\x7b\x7b a \x7d\x7d" [("a", "X")] = .ok "X.X" :=
  ⟨fun t ctx₁ ctx₂ h => applyVars_congr (extract_vars t) ctx₁ ctx₂ h t, rfl, rfl, rfl, rfl⟩

/-- C2 witness: rendering is unchanged under a context extension that leaves
the extracted variable's binding alone. -/
theorem render_sequential_amended_witness :
    generate_license "\x7b\x7b y \x7d\x7d" [("y", "1")]
      = generate_license "\x7b\x7b y \x7d\x7d" [("y", "1"), ("z", "2")] :=
  render_sequential_amended.1 _ _ _ (by decide)

/-- C3: if the context lacks a value for some extracted variable, rendering
fails with the ValueError naming a missing variable, and no output is
produced (the function returns only the error). -/
theorem render_missing_var_error (t : String) (ctx : List (String × String))
    (h : ∃ k ∈ extract_vars t, List.lookup k ctx = none) :
    ∃ k ∈ extract_vars t, List.lookup k ctx = none ∧
      generate_license t ctx = .error (missingMsg k) :=
  applyVars_error_of_missing ctx (extract_vars t) t h

/-- C3 witness: a context missing `organization` makes rendering fail. -/
theorem render_missing_var_error_witness :
    (∃ k ∈ extract_vars "\x7b\x7b year \x7d\x7d \x7b\x7b organization \x7d\x7d",
        List.lookup k [("year", "2024")] = none) ∧
      ∃ k ∈ extract_vars "\x7b\x7b year \x7d\x7d \x7b\x7b organization \x7d\x7d",
        List.lookup k [("year", "2024")] = none ∧
          generate_license "\x7b\x7b year \x7d\x7d \x7b\x7b organization \x7d\x7d"
            [("year", "2024")] = .error (missingMsg k) :=
  ⟨by decide, render_missing_var_error _ _ (by decide)⟩

/-- C4: `load_file_template` checks existence of the raw path argument, not
of the resolved path, before reading the resolved path.  At the failing
input `"~/LICENSE"` — where the literal path does not exist but its
expansion `"/home/user/LICENSE"` does — the function raises even though the
resolved path exists, contradicting the claim that it fails exactly when the
resolved path does not exist. -/
theorem load_file_template_checks_raw_path :
    load_file_template tildeEnv tildeFs "~/LICENSE" ⟨"", "", ""⟩
        = .error "path does not exist: ~/LICENSE" ∧
      tildeFs.pathExists (clean_path tildeEnv "~/LICENSE") = true :=
  ⟨rfl, rfl⟩

/-- C5: variable extraction returns a list that is sorted lexicographically
and duplicate-free, whose members are exactly the placeholder keys found by
the scan — hence independent of their order of appearance; in particular the
two-variable templates in either order both yield `["a", "b"]`. -/
theorem extract_vars_sorted_nodup_complete :
    (∀ t : String, (extract_vars t).Sorted (· ≤ ·) ∧ (extract_vars t).Nodup ∧
        ∀ s : String, s ∈ extract_vars t ↔ s ∈ scanVars t.data) ∧
    extract_vars "\x7b\x7b a \x7d\x7d \x7b\x7b b \x7d\x7d" = ["a", "b"] ∧
    extract_vars "\x7b\x7b b \x7d\x7d \x7b\x7b a \x7d\x7d" = ["a", "b"] := by
  refine ⟨fun t => ⟨?_, extract_vars_nodup t, mem_extract_vars t⟩, by decide, by decide⟩
  exact (extract_vars_sorted t).imp fun h => (strLe_iff_le _ _).mp h

/-- C6: decorating a template (a list of newline-terminated raw lines) with
any style of the `LANG_CMT` table and then stripping that style's
open-marker line, per-line marker and close-marker line reconstructs the
original lines exactly. -/
theorem decorate_strip_round_trip (name : String) (style : CommentStyle)
    (lines : List String) (hstyle : (name, style) ∈ LANG_CMT)
    (hl : ∀ l ∈ lines, isRawLine l = true) :
    stripDecoration style (decorate style lines) = lines :=
  stripDecoration_decorate style lines (LANG_CMT_noNewlineMarks (name, style) hstyle) hl

/-- C6 witness: the round trip at the C-comment style on a two-line
template. -/
theorem decorate_strip_round_trip_witness :
    (("c", (⟨"/*", " *", " */"⟩ : CommentStyle)) ∈ LANG_CMT ∧
        (∀ l ∈ ["Hello\n", "World\n"], isRawLine l = true)) ∧
      stripDecoration ⟨"/*", " *", " */"⟩
          (decorate ⟨"/*", " *", " */"⟩ ["Hello\n", "World\n"]) = ["Hello\n", "World\n"] :=
  ⟨⟨by decide, by decide⟩,
    decorate_strip_round_trip "c" ⟨"/*", " *", " */"⟩ ["Hello\n", "World\n"]
      (by decide) (by decide)⟩

/-- C7: a text containing no placeholder token extracts to the empty
variable list and renders to itself under any context; in particular
rendering an already fully-rendered text a second time is a no-op. -/
theorem render_no_placeholders_identity (t : String) (ctx : List (String × String))
    (h : scanVars t.data = []) :
    extract_vars t = [] ∧ generate_license t ctx = .ok t := by
  have he : extract_vars t = [] := by rw [extract_vars, h]; rfl
  exact ⟨he, by rw [generate_license, he]; rfl⟩

/-- C7 witness: a rendered copyright line scans to no tokens and renders to
itself. -/
theorem render_no_placeholders_identity_witness :
    scanVars "Copyright 2024 Acme\n".data = [] ∧
      (extract_vars "Copyright 2024 Acme\n" = [] ∧
        generate_license "Copyright 2024 Acme\n" [("year", "2024")]
          = .ok "Copyright 2024 Acme\n") :=
  ⟨by decide, render_no_placeholders_identity _ _ (by decide)⟩

/-- C8: in header mode with no template path, a missing bundled header
resource for the requested license produces the "Sorry" diagnostic on stderr
and exit code 1; a header resource that loads and renders is written to
stdout with exit code 0. -/
theorem header_mode_exit_codes (env : PathEnv) (fs : FileSys)
    (res : String → Option (List String)) (license : String) (style : CommentStyle)
    (context : List (String × String)) :
    (res (headerResourceName license) = none →
        header_mode env fs res none license style context
          = ⟨1, "", "Sorry, no source headers are available for " ++ license ++ ".\n"⟩) ∧
    (∀ lines content, res (headerResourceName license) = some lines →
        generate_license (decorate style lines) context = .ok content →
        header_mode env fs res none license style context = ⟨0, content, ""⟩) := by
  constructor
  · intro h
    simp [header_mode, load_package_template, h]
  · intro lines content h1 h2
    simp [header_mode, load_package_template, h1, h2]

/-- C8 witness: a missing header resource exits 1 with the diagnostic; a
present one renders to stdout and exits 0. -/
theorem header_mode_exit_codes_witness :
    header_mode ⟨id, id, id⟩ ⟨fun _ => false, fun _ => []⟩ (fun _ => none)
        none "x11" ⟨"", "", ""⟩ []
        = ⟨1, "", "Sorry, no source headers are available for x11.\n"⟩ ∧
      header_mode ⟨id, id, id⟩ ⟨fun _ => false, fun _ => []⟩
          (fun _ => some ["Copyright \x7b\x7b year \x7d\x7d\n"])
          none "bsd3" ⟨"", "#", ""⟩ [("year", "2024")]
        = ⟨0, "\n# Copyright 2024\n\n", ""⟩ :=
  ⟨(header_mode_exit_codes _ _ _ _ _ _).1 rfl,
    (header_mode_exit_codes _ _ _ _ _ _).2 _ _ rfl rfl⟩

/-- C9: with no explicit organization flag, the organization is the stripped
output of the git user-name lookup when that subprocess succeeds, and the OS
user name on any failure; an explicit flag is used as given. -/
theorem organization_fallback (env : OrgEnv) :
    (∀ out, env.gitUserName = some out → resolve_organization none env = out.trim) ∧
    (env.gitUserName = none → resolve_organization none env = env.osUser) ∧
    (∀ o, resolve_organization (some o) env = o) := by
  refine ⟨fun out h => ?_, fun h => ?_, fun o => rfl⟩ <;>
    simp [resolve_organization, guess_organization, h]

/-- C9 witness: git success uses the stripped git output; git failure falls
back to the OS user. -/
theorem organization_fallback_witness :
    resolve_organization none ⟨some "  Acme Inc\n", "alice"⟩ = ("  Acme Inc\n").trim ∧
      resolve_organization none ⟨none, "alice"⟩ = "alice" ∧
      resolve_organization (some "Umbrella") ⟨none, "alice"⟩ = "Umbrella" :=
  ⟨(organization_fallback ⟨some "  Acme Inc\n", "alice"⟩).1 _ rfl,
    (organization_fallback ⟨none, "alice"⟩).2.1 rfl,
    (organization_fallback ⟨none, "alice"⟩).2.2 "Umbrella"⟩

/-- C10: when at least one extracted variable is missing from the context,
rendering fails with the error naming the lexicographically smallest missing
variable (the extracted list is checked in sorted order), so the error is
deterministic. -/
theorem render_error_names_smallest_missing (t : String) (ctx : List (String × String))
    (h : ∃ k ∈ extract_vars t, List.lookup k ctx = none) :
    ∃ m ∈ extract_vars t, List.lookup m ctx = none ∧
      (∀ k ∈ extract_vars t, List.lookup k ctx = none → m ≤ k) ∧
      generate_license t ctx = .error (missingMsg m) := by
  obtain ⟨m, hmem, hnone, hmin, happ⟩ :=
    applyVars_error_sorted ctx (extract_vars t) (extract_vars_sorted t) t h
  exact ⟨m, hmem, hnone, fun k hk hn => (strLe_iff_le m k).mp (hmin k hk hn), happ⟩

/-- C10 witness: with both `organization` and `year` missing, the error
names `organization`, the smaller of the two. -/
theorem render_error_names_smallest_missing_witness :
    (∃ k ∈ extract_vars "\x7b\x7b year \x7d\x7d \x7b\x7b organization \x7d\x7d",
        List.lookup k ([] : List (String × String)) = none) ∧
      ∃ m ∈ extract_vars "\x7b\x7b year \x7d\x7d \x7b\x7b organization \x7d\x7d",
        List.lookup m ([] : List (String × String)) = none ∧
          (∀ k ∈ extract_vars "\x7b\x7b year \x7d\x7d \x7b\x7b organization \x7d\x7d",
              List.lookup k ([] : List (String × String)) = none → m ≤ k) ∧
          generate_license "\x7b\x7b year \x7d\x7d \x7b\x7b organization \x7d\x7d" []
            = .error (missingMsg m) :=
  ⟨by decide, render_error_names_smallest_missing _ _ (by decide)⟩

end Lice
